import Mathlib

/-!
Verification of the DWA_path_planner repository against its natural-language
specification.  Python floating-point arithmetic is modelled over the reals;
stateful UI components are modelled by explicit state passing, and reference
aliasing by a small store of numbered cells.  Definitions are translated from
the source files; components whose implementation files are absent from the
sources are modelled from the specification and carry a doc comment saying so.
-/

/- ========================= basic numeric helpers ========================= -/

/-- math.radians: degrees to radians. -/
noncomputable def radians (d : Real) : Real := d * Real.pi / 180

/-- math.degrees: radians to degrees. -/
noncomputable def degrees (r : Real) : Real := r * 180 / Real.pi

/-- Python float modulo: a % b = a - b * floor(a / b) (sign of the divisor). -/
noncomputable def floatMod (a b : Real) : Real := a - b * Int.floor (a / b)

/- =============== sensors/sensor_fusion.py (SensorFusionEngine) =========== -/

/-- VehicleState dataclass from src/sensors/sensor_fusion.py. -/
structure VehicleState where
  x : Real
  y : Real
  z : Real
  yaw : Real
  v_x : Real
  v_y : Real
  v_z : Real
  yaw_rate : Real
  timestamp : Real

/-- SensorFusionEngine holds one stored vehicle state. -/
structure SensorFusionEngine where
  state : VehicleState
  use_vio : Bool

/-- predict_state from src/sensors/sensor_fusion.py lines 82-99: kinematic
prediction over dt; the wall-clock reading time.time() is passed in as now.
The method reads the stored state and returns a new VehicleState; the second
component of the result is the engine after the call (unchanged). -/
noncomputable def SensorFusionEngine.predict_state (e : SensorFusionEngine)
    (dt now : Real) : VehicleState × SensorFusionEngine :=
  let s := e.state
  let new_x := s.x + s.v_x * dt
  let new_y := s.y + s.v_y * dt
  let new_yaw0 := s.yaw + s.yaw_rate * dt
  let new_yaw := floatMod (new_yaw0 + Real.pi) (2 * Real.pi) - Real.pi
  (⟨new_x, new_y, s.z, new_yaw, s.v_x, s.v_y, s.v_z, s.yaw_rate, now⟩, e)

/- ============ ui/widgets/polygon_editor.py (value-level model) =========== -/

/-- MAX_CORNERS from src/ui/widgets/polygon_editor.py line 45. -/
def MAX_CORNERS : Nat := 100

/-- MIN_CORNERS_FOR_POLYGON from src/ui/widgets/polygon_editor.py line 46. -/
def MIN_CORNERS_FOR_POLYGON : Nat := 3

/-- MIN_CORNERS from src/ui/main_window.py line 31. -/
def MIN_CORNERS : Nat := 3

/-- The corner-list state of the PolygonEditor widget. -/
structure PolygonEditor where
  corners : List (Real × Real)
  max_corners : Nat
  edit_mode : Bool

/-- add_corner (polygon_editor.py lines 598-609): refuse when the list is at
or beyond max_corners, otherwise append. -/
def PolygonEditor.add_corner (ed : PolygonEditor) (lat lon : Real) :
    PolygonEditor :=
  if ed.max_corners ≤ ed.corners.length then ed
  else { ed with corners := ed.corners ++ [(lat, lon)] }

/-- on_map_clicked (polygon_editor.py lines 582-596): ignore clicks outside
edit mode or at the cap, otherwise delegate to add_corner. -/
def PolygonEditor.on_map_clicked (ed : PolygonEditor) (lat lon : Real) :
    PolygonEditor :=
  if !ed.edit_mode then ed
  else if ed.max_corners ≤ ed.corners.length then ed
  else ed.add_corner lat lon

/-- remove_corner (polygon_editor.py lines 624-645). -/
def PolygonEditor.remove_corner (ed : PolygonEditor) (idx : Nat) :
    PolygonEditor :=
  if idx < ed.corners.length then
    { ed with corners := ed.corners.eraseIdx idx }
  else ed

/-- undo_last_corner (polygon_editor.py lines 647-650). -/
def PolygonEditor.undo_last_corner (ed : PolygonEditor) : PolygonEditor :=
  if ed.corners.isEmpty then ed
  else ed.remove_corner (ed.corners.length - 1)

/-- clear_all_corners confirmed branch (polygon_editor.py lines 652-670). -/
def PolygonEditor.clear_all_corners (ed : PolygonEditor) : PolygonEditor :=
  { ed with corners := [] }

/-- set_corners (polygon_editor.py lines 855-860): the stored list becomes
the slice corners[:max_corners] of the argument. -/
def PolygonEditor.set_corners (ed : PolygonEditor) (cs : List (Real × Real)) :
    PolygonEditor :=
  { ed with corners := cs.take ed.max_corners }

/-- on_import_corners (polygon_editor.py lines 801-849): empty data warns and
leaves the state; a list longer than max_corners is truncated to the first
max_corners entries when the user accepts, otherwise aborted; the kept
entries replace the current corners. -/
def PolygonEditor.on_import_corners (ed : PolygonEditor)
    (imported : List (Real × Real)) (accept_truncate : Bool) : PolygonEditor :=
  if imported.isEmpty then ed
  else if ed.max_corners < imported.length then
    if accept_truncate then { ed with corners := imported.take ed.max_corners }
    else ed
  else { ed with corners := imported }

/- ======== ui/widgets/polygon_editor.py _calculate_area (lines 709-736) ==== -/

/-- The local projection used inside _calculate_area (polygon_editor.py lines
721-724): degree differences scaled by 111111.0 metres per degree, the east
component scaled by the cosine of the centre latitude. -/
noncomputable def latlon_to_xy_area (center_lat center_lon lat lon : Real) :
    Real × Real :=
  ((lon - center_lon) * 111111.0 * Real.cos (radians center_lat),
   (lat - center_lat) * 111111.0)

/-- The shoelace loop of _calculate_area (polygon_editor.py lines 729-734):
for i in range(n), j = (i+1) % n, accumulate x_i * y_j - x_j * y_i. -/
noncomputable def shoelaceSum (pts : List (Real × Real)) : Real :=
  ∑ i ∈ Finset.range pts.length,
    ((pts.getD i (0, 0)).1 * (pts.getD ((i + 1) % pts.length) (0, 0)).2 -
     (pts.getD ((i + 1) % pts.length) (0, 0)).1 * (pts.getD i (0, 0)).2)

/-- calculate_area (polygon_editor.py lines 709-736): zero below three
corners; otherwise project about the mean corner and halve the absolute
shoelace sum. -/
noncomputable def calculate_area (corners : List (Real × Real)) : Real :=
  if corners.length < MIN_CORNERS_FOR_POLYGON then 0
  else
    let center_lat := (corners.map Prod.fst).sum / corners.length
    let center_lon := (corners.map Prod.snd).sum / corners.length
    let polygon_xy :=
      corners.map fun c => latlon_to_xy_area center_lat center_lon c.1 c.2
    |shoelaceSum polygon_xy| / 2.0

/- ============= ui/main_window.py total-distance loop (761-768) =========== -/

/-- One term of the total-distance loop in on_preview_paths (main_window.py
lines 763-768): degree differences times 111111.0, the east component scaled
by the cosine of the segment mid-latitude. -/
noncomputable def segment_distance (p q : Real × Real) : Real :=
  let dlat := (q.1 - p.1) * 111111.0
  let dlon := (q.2 - p.2) * 111111.0 * Real.cos (radians ((p.1 + q.1) / 2))
  Real.sqrt (dlat ^ 2 + dlon ^ 2)

/-- The total-distance accumulation over consecutive waypoints
(main_window.py lines 762-768). -/
noncomputable def total_distance (path : List (Real × Real)) : Real :=
  ((path.zip path.tail).map fun pq => segment_distance pq.1 pq.2).sum

/- ========== ui/main_window.py on_preview_paths dispatch (635-754) ======== -/

/-- Algorithm selection strings of main_window.py as a closed enumeration. -/
inductive Algo where
  | grid
  | spiral
  | astar
  | rrt
  | rrt_star
  | dijkstra
  | dwa
  | other
deriving DecidableEq

/-- ScanPattern of the coverage planner (only the tag matters here). -/
inductive ScanPattern where
  | GRID
  | SPIRAL
deriving DecidableEq

/-- Heuristic selection of the grid-search planner. -/
inductive HeuristicType where
  | euclidean
  | manhattan
deriving DecidableEq

/-- The flight parameter record of MainWindow.init_variables
(main_window.py lines 87-96). -/
structure FlightParams where
  altitude : Real
  speed : Real
  angle : Real
  spacing : Real
  yaw_speed : Real
  subdivisions : Nat
  region_spacing : Real
  turn_radius : Real

/-- The default flight parameters of main_window.py lines 87-96. -/
def default_flight_params : FlightParams :=
  { altitude := 50.0, speed := 10.0, angle := 0.0, spacing := 20.0,
    yaw_speed := 60.0, subdivisions := 1, region_spacing := 3.0,
    turn_radius := 50.0 }

/-- The planner construction performed by one branch of on_preview_paths,
with every constructor argument recorded.  The heuristic_weight field of
astarCall is an Option: none when the branch leaves the constructor default
in place, some w when it passes w explicitly. -/
inductive PlannerInvocation where
  | coverage (spacing angle : Real) (pattern : ScanPattern)
      (is_fixed_wing : Bool) (turn_radius : Real) (smooth_turns : Bool)
      (boundary : List (Real × Real))
  | astarCall (step_size : Real) (heuristic : HeuristicType)
      (heuristic_weight : Option Real) (start goal : Real × Real)
      (boundary : List (Real × Real))
  | rrtCall (step_size goal_sample_rate : Real) (max_iter : Nat)
      (start goal : Real × Real) (search_area : Real × Real × Real × Real)
  | rrtStarCall (step_size goal_sample_rate : Real) (max_iter : Nat)
      (search_radius : Real) (start goal : Real × Real)
      (search_area : Real × Real × Real × Real)
  | direct (path : List (Real × Real))
  | noPlanner

/-- The search_area computation of the rrt branch (main_window.py lines
687-690): (min lats, min lons, max lats, max lons) over the corners. -/
noncomputable def corners_search_area (corners : List (Real × Real)) :
    Real × Real × Real × Real :=
  (((corners.map Prod.fst).min?).getD 0,
   ((corners.map Prod.snd).min?).getD 0,
   ((corners.map Prod.fst).max?).getD 0,
   ((corners.map Prod.snd).max?).getD 0)

/-- The algorithm dispatch of on_preview_paths (main_window.py lines
646-750), recording which planner each branch constructs and with which
arguments.  corners[0] and corners[-1] are taken with a default that is
irrelevant under the length guards of the branches. -/
noncomputable def on_preview_select (algo : Algo) (fp : FlightParams)
    (is_fixed_wing : Bool) (corners : List (Real × Real)) :
    PlannerInvocation :=
  match algo with
  | .grid =>
      .coverage fp.spacing fp.angle .GRID is_fixed_wing fp.turn_radius
        is_fixed_wing corners
  | .spiral =>
      .coverage fp.spacing fp.angle .SPIRAL is_fixed_wing fp.turn_radius
        is_fixed_wing corners
  | .astar =>
      if 2 ≤ corners.length then
        .astarCall fp.spacing .euclidean none (corners.headD (0, 0))
          (corners.getLastD (0, 0)) corners
      else .noPlanner
  | .rrt =>
      if 2 ≤ corners.length then
        .rrtCall 0.0001 0.1 1000 (corners.headD (0, 0))
          (corners.getLastD (0, 0)) (corners_search_area corners)
      else .noPlanner
  | .rrt_star =>
      if 2 ≤ corners.length then
        .rrtStarCall 0.0001 0.1 1000 0.0005 (corners.headD (0, 0))
          (corners.getLastD (0, 0)) (corners_search_area corners)
      else .noPlanner
  | .dijkstra =>
      if 2 ≤ corners.length then
        .astarCall fp.spacing .euclidean (some 0.0) (corners.headD (0, 0))
          (corners.getLastD (0, 0)) corners
      else .noPlanner
  | .dwa => .direct corners
  | .other =>
      .coverage fp.spacing fp.angle .GRID false fp.turn_radius false corners

/-- Planner-entry error taxonomy of the specification, section 7. -/
inductive PlanError where
  | invalidInput
deriving DecidableEq

/-- Outcome of on_preview_paths as observed by the user. -/
inductive PreviewOutcome where
  | warned_min_corners
  | generation_failed
  | completed (path : List (Real × Real))
  | error_dialog

/-- on_preview_paths (main_window.py lines 635-806): fewer than MIN_CORNERS
corners shows a warning dialog and returns before any planner is invoked;
otherwise the selected planner runs inside a try block whose except branch
shows an error dialog (no exception propagates); a falsy path (None or
empty) shows the generation-failure warning. -/
noncomputable def on_preview_paths
    (runPlanner : PlannerInvocation →
      Except PlanError (Option (List (Real × Real))))
    (algo : Algo) (fp : FlightParams) (is_fixed_wing : Bool)
    (corners : List (Real × Real)) : PreviewOutcome :=
  if corners.length < MIN_CORNERS then .warned_min_corners
  else
    match runPlanner (on_preview_select algo fp is_fixed_wing corners) with
    | .error _ => .error_dialog
    | .ok none => .generation_failed
    | .ok (some []) => .generation_failed
    | .ok (some (p :: rest)) => .completed (p :: rest)

/- ============== core/geometry coordinate transformer (spec) ============== -/

/-- Modelled from the spec: the Earth radius of section 4.1; the file
core/geometry/coordinate.py that defines CoordinateTransformer is absent
from the sources, and the spec allows the mean radius 6,371,000 m. -/
def R_EARTH : Real := 6371000

/-- Modelled from the spec: geo_to_local of the absent CoordinateTransformer
(core/geometry/coordinate.py), equirectangular about a fixed origin per
section 4.1: x = (lon - lon0) in radians * R * cos(lat0 in radians),
y = (lat - lat0) in radians * R. -/
noncomputable def geo_to_local (lat0 lon0 lat lon : Real) : Real × Real :=
  (radians (lon - lon0) * R_EARTH * Real.cos (radians lat0),
   radians (lat - lat0) * R_EARTH)

/-- Modelled from the spec: local_to_geo of the absent CoordinateTransformer,
the algebraic reverse of geo_to_local per section 4.1. -/
noncomputable def local_to_geo (lat0 lon0 x y : Real) : Real × Real :=
  (lat0 + degrees (y / R_EARTH),
   lon0 + degrees (x / (R_EARTH * Real.cos (radians lat0))))

/-- CoordinateTransform wrapper from src/core/geometry/init lines 19-48,
holding the projection origin. -/
structure CoordinateTransform where
  center_lat : Real
  center_lon : Real

/-- latlon_to_xy (core/geometry wrapper, lines 32-35): delegate to
geo_to_local of the transformer. -/
noncomputable def CoordinateTransform.latlon_to_xy (t : CoordinateTransform)
    (lat lon : Real) : Real × Real :=
  geo_to_local t.center_lat t.center_lon lat lon

/-- xy_to_latlon (core/geometry wrapper, lines 37-40): delegate to
local_to_geo of the transformer. -/
noncomputable def CoordinateTransform.xy_to_latlon (t : CoordinateTransform)
    (x y : Real) : Real × Real :=
  local_to_geo t.center_lat t.center_lon x y

/- ================= core/global_planner/rrt.py (spec model) =============== -/

/-- Tree node of the sampling planner: position, parent index, cost from
root (spec section 3, TreeNode). -/
structure RRTNode where
  pos : Real × Real
  parent : Option Nat
  cost : Real

/-- Squared Euclidean distance in the plane. -/
noncomputable def dist2 (p q : Real × Real) : Real :=
  (p.1 - q.1) ^ 2 + (p.2 - q.2) ^ 2

/-- Euclidean distance in the plane. -/
noncomputable def pdist (p q : Real × Real) : Real := Real.sqrt (dist2 p q)

/-- Modelled from the spec: the steer step of section 4.6 item 4 of the
absent rrt.py — move from p toward s by at most step. -/
noncomputable def steer (p s : Real × Real) (step : Real) : Real × Real :=
  if pdist p s ≤ step then s
  else (p.1 + step * (s.1 - p.1) / pdist p s,
        p.2 + step * (s.2 - p.2) / pdist p s)

/-- Modelled from the spec: nearest tree node of section 4.6 item 3, ties
broken by earliest insertion index (strict improvement required). -/
noncomputable def nearest_index (tree : List RRTNode) (s : Real × Real) :
    Nat :=
  match tree with
  | [] => 0
  | t0 :: rest =>
      (rest.foldl
        (fun (acc : Nat × Nat × Real) nd =>
          if dist2 nd.pos s < acc.2.2 then (acc.2.1, acc.2.1 + 1, dist2 nd.pos s)
          else (acc.1, acc.2.1 + 1, acc.2.2))
        (0, 1, dist2 t0.pos s)).1

/-- Path reconstruction by following parent indices, with fuel bounding the
walk (spec section 4.6 item 7). -/
def backtrack (tree : List RRTNode) : Nat → Nat → List (Real × Real)
  | 0, _ => []
  | fuel + 1, idx =>
      match tree[idx]? with
      | none => []
      | some nd =>
          match nd.parent with
          | none => [nd.pos]
          | some pidx => backtrack tree fuel pidx ++ [nd.pos]

/-- Modelled from the spec: the RRT growth loop of section 4.6 items 2-8 of
the absent rrt.py.  The injectable random source of section 5 is passed as
the goal-bias coin and the stream of drawn sample points; cc is the segment
collision test; fuel counts the remaining iterations of max_iter. -/
noncomputable def rrt_loop (cc : Real × Real → Real × Real → Bool)
    (samples : Nat → Real × Real) (coin : Nat → Bool) (step : Real)
    (goal : Real × Real) : Nat → List RRTNode →
    Option (List (Real × Real))
  | 0, _ => none
  | fuel + 1, tree =>
      let s := if coin fuel then goal else samples fuel
      let ni := nearest_index tree s
      let npos := ((tree[ni]?).map RRTNode.pos).getD (0, 0)
      let ncost := ((tree[ni]?).map RRTNode.cost).getD 0
      let cand := steer npos s step
      if cc npos cand then rrt_loop cc samples coin step goal fuel tree
      else
        let tree2 := tree ++ [⟨cand, some ni, ncost + pdist npos cand⟩]
        if pdist cand goal ≤ step ∧ cc cand goal = false then
          some (backtrack tree2 tree2.length (tree2.length - 1) ++ [goal])
        else rrt_loop cc samples coin step goal fuel tree2

/-- Modelled from the spec: plan of the absent rrt.py.  Entry validation per
section 7 rejects malformed input with InvalidInputError; the trivial
start = goal case returns a one-point path (section 4.6); otherwise the
growth loop runs for max_iter iterations and its normal return value is the
planning outcome, none denoting failure (section 7, PlanningFailure). -/
noncomputable def rrt_plan (cc : Real × Real → Real × Real → Bool)
    (samples : Nat → Real × Real) (coin : Nat → Bool) (step rate : Real)
    (max_iter : Nat) (start goal : Real × Real) :
    Except PlanError (Option (List (Real × Real))) :=
  if ¬ (0 < step) ∨ ¬ (0 ≤ rate ∧ rate ≤ 1) ∨ max_iter = 0 then
    .error .invalidInput
  else if start = goal then .ok (some [start])
  else .ok (rrt_loop cc samples coin step goal max_iter [⟨start, none, 0⟩])

/- ================ reference-aliasing model (lists as cells) ============== -/

/-- A store of list-valued cells; a Python list object is a cell index, so
aliasing is visible as two holders of the same index. -/
structure RefStore (α : Type) where
  cells : List (List α)

/-- Allocate a fresh cell holding v and return its index. -/
def RefStore.alloc (st : RefStore α) (v : List α) : RefStore α × Nat :=
  (⟨st.cells ++ [v]⟩, st.cells.length)

/-- Read the list held by cell r. -/
def RefStore.read (st : RefStore α) (r : Nat) : List α :=
  st.cells.getD r []

/-- Overwrite cell r (in-place mutation of the Python list object). -/
def RefStore.write (st : RefStore α) (r : Nat) (v : List α) : RefStore α :=
  ⟨st.cells.set r v⟩

/-- The obstacle-list state of ObstacleManagerDialog: a reference to its
obstacle list. -/
structure ObstacleManagerDialog where
  obstacles : Nat

/-- ObstacleManagerDialog init (obstacle_manager.py lines 28-50):
self.obstacles = obstacles.copy() if obstacles else [] — a fresh cell is
allocated holding a copy of the caller cell. -/
def dialog_init (st : RefStore α) (caller : Option Nat) :
    RefStore α × ObstacleManagerDialog :=
  match caller with
  | some r =>
      let p := st.alloc (st.read r)
      (p.1, ⟨p.2⟩)
  | none =>
      let p := st.alloc []
      (p.1, ⟨p.2⟩)

/-- on_apply (obstacle_manager.py lines 274-278): the obstacles_changed
signal is emitted with self.obstacles itself — the internal cell index, not
a copy. -/
def ObstacleManagerDialog.on_apply (d : ObstacleManagerDialog) : Nat :=
  d.obstacles

/-- get_obstacles (obstacle_manager.py lines 280-282): returns
self.obstacles.copy() — a fresh cell holding a copy. -/
def ObstacleManagerDialog.get_obstacles (st : RefStore α)
    (d : ObstacleManagerDialog) : RefStore α × Nat :=
  st.alloc (st.read d.obstacles)

/-- on_add_obstacle (obstacle_manager.py lines 197-214): appends to the
internal list in place. -/
def ObstacleManagerDialog.on_add_obstacle (st : RefStore α)
    (d : ObstacleManagerDialog) (obs : α) : RefStore α :=
  st.write d.obstacles (st.read d.obstacles ++ [obs])

/-- The obstacle reference held by MainWindow. -/
structure MainWindowObstacles where
  obstacles : Nat

/-- on_obstacles_changed (main_window.py lines 1088-1091):
self.obstacles = obstacles — stores the received list reference without a
copy. -/
def MainWindowObstacles.on_obstacles_changed (_mw : MainWindowObstacles)
    (r : Nat) : MainWindowObstacles :=
  ⟨r⟩

/-- The corner-list reference held by the PolygonEditor widget. -/
structure PolygonEditorRefs where
  corners : Nat
  max_corners : Nat

/-- get_corners (polygon_editor.py lines 851-853): returns
self.corners.copy() — a fresh cell holding a copy. -/
def PolygonEditorRefs.get_corners (st : RefStore α)
    (ed : PolygonEditorRefs) : RefStore α × Nat :=
  st.alloc (st.read ed.corners)

/-- set_corners (polygon_editor.py lines 855-860): self.corners becomes the
slice corners[:max_corners], which is a fresh list object. -/
def PolygonEditorRefs.set_corners (st : RefStore α)
    (ed : PolygonEditorRefs) (src : Nat) : RefStore α × PolygonEditorRefs :=
  let p := st.alloc ((st.read src).take ed.max_corners)
  (p.1, { ed with corners := p.2 })

/-- One cross term of the shoelace loop: x_i * y_j - x_j * y_i. -/
noncomputable def crossTerm (p q : Real × Real) : Real :=
  p.1 * q.2 - q.1 * p.2

/- ============ core/global_planner/astar.py (spec model, section 4.5) ===== -/

/-- Modelled from the spec: a frontier record of the grid search of the
absent astar.py — the current node, the reversed path from the start (head
is the current node) and the accumulated cost g.  The spec keeps parent
back-references; carrying the reversed path is the same data flattened. -/
structure SearchEntry (V : Type) where
  node : V
  path : List V
  g : Real

/-- The priority key f = g + weighted heuristic of the entry node
(spec section 4.5). -/
noncomputable def fval {V : Type} (φ : V → Real) (e : SearchEntry V) :
    Real :=
  e.g + φ e.node

/-- Modelled from the spec: removal of the minimum-f entry from the open
list, ties broken by insertion order (earliest first, spec section 4.5);
returns the chosen entry and the remaining open list. -/
noncomputable def argminF {V : Type} (φ : V → Real) :
    List (SearchEntry V) → Option (SearchEntry V × List (SearchEntry V))
  | [] => none
  | e :: es =>
      match argminF φ es with
      | none => some (e, es)
      | some (b, rest) =>
          if fval φ b < fval φ e then some (b, e :: rest) else some (e, es)

/-- The set of settled node keys of the closed list. -/
def closedKeys {V : Type} (closed : List (V × Real)) : List V :=
  closed.map Prod.fst

/-- Modelled from the spec: the best-first search loop of the absent
astar.py per section 4.5 — pop the minimum-f entry, skip already settled
nodes, return on the accepting node, otherwise settle the node and push its
unsettled neighbours; an exhausted open list is the failure value none. -/
noncomputable def astar_search {V : Type} [DecidableEq V]
    (adj : V → List V) (c : V → V → Real) (φ : V → Real) (goal : V) :
    Nat → List (V × Real) → List (SearchEntry V) → Option (SearchEntry V)
  | 0, _, _ => none
  | fuel + 1, closed, opn =>
      match argminF φ opn with
      | none => none
      | some (e, rest) =>
          if e.node ∈ closedKeys closed then
            astar_search adj c φ goal fuel closed rest
          else if e.node = goal then some e
          else
            astar_search adj c φ goal fuel ((e.node, e.g) :: closed)
              (rest ++ ((adj e.node).filter
                  (fun v => decide
                    (v ∉ closedKeys ((e.node, e.g) :: closed)))).map
                (fun v => ⟨v, v :: e.path, e.g + c e.node v⟩))

/-- Modelled from the spec: one planning run of the grid search, starting
from the open list holding only the start entry. -/
noncomputable def astar_run {V : Type} [DecidableEq V] (adj : V → List V)
    (c : V → V → Real) (φ : V → Real) (start goal : V) (fuel : Nat) :
    Option (SearchEntry V) :=
  astar_search adj c φ goal fuel [] [⟨start, [start], 0⟩]

/-- Total cost of a reversed path under the edge cost c (head is the most
recent node). -/
noncomputable def rcost {V : Type} (c : V → V → Real) : List V → Real
  | [] => 0
  | [_] => 0
  | v :: u :: rest => c u v + rcost c (u :: rest)

/-- A reversed path is valid when it descends from the start through the
adjacency relation (head is the current node). -/
def ValidRPath {V : Type} (adj : V → List V) (start : V) : List V → Prop
  | [] => False
  | [v] => v = start
  | v :: u :: rest => v ∈ adj u ∧ ValidRPath adj start (u :: rest)

/-- The loop invariant of the grid search: open entries are valid costed
paths; settled costs are lower bounds on every path cost to the settled
node; every edge out of the settled region into an unsettled node is covered
by an open entry; the start stays covered while unsettled; the accepting
node is never settled. -/
structure SearchInv {V : Type} (adj : V → List V) (c : V → V → Real)
    (start goal : V) (closed : List (V × Real))
    (opn : List (SearchEntry V)) : Prop where
  open_sound : ∀ e ∈ opn, ValidRPath adj start e.path ∧
    e.path.head? = some e.node ∧ e.g = rcost c e.path
  closed_opt : ∀ p ∈ closed, ∀ q, ValidRPath adj start q →
    q.head? = some p.1 → p.2 ≤ rcost c q
  closed_edge : ∀ p ∈ closed, ∀ w ∈ adj p.1, w ∉ closedKeys closed →
    ∃ e ∈ opn, e.node = w ∧ e.g ≤ p.2 + c p.1 w
  start_open : start ∉ closedKeys closed →
    ∃ e ∈ opn, e.node = start ∧ e.g ≤ 0
  goal_not_closed : goal ∉ closedKeys closed

/-- Euclidean edge cost from node positions in the plane (complex numbers
carry the Euclidean metric); on the 8-connected grid of section 4.5 this is
step_size for orthogonal moves and step_size * sqrt 2 for diagonal moves. -/
noncomputable def euclidCost {V : Type} (pos : V → Complex) (u v : V) :
    Real :=
  dist (pos u) (pos v)

/-- The euclidean heuristic of section 4.5: distance to the goal node. -/
noncomputable def euclidHeuristic {V : Type} (pos : V → Complex)
    (goal v : V) : Real :=
  dist (pos v) (pos goal)

/-- Modelled from the spec: the 8-connected neighbourhood of a grid cell,
restricted to valid cells (inside the boundary and collision free, folded
into the validity predicate; spec section 4.5). -/
def gridNeighbors (valid : Int × Int → Bool) (p : Int × Int) :
    List (Int × Int) :=
  [(p.1 + 1, p.2), (p.1 - 1, p.2), (p.1, p.2 + 1), (p.1, p.2 - 1),
   (p.1 + 1, p.2 + 1), (p.1 + 1, p.2 - 1), (p.1 - 1, p.2 + 1),
   (p.1 - 1, p.2 - 1)].filter valid

/-- The planar position of a grid cell at the given resolution. -/
noncomputable def gridPos (origin : Complex) (step : Real)
    (p : Int × Int) : Complex :=
  ⟨origin.re + step * p.1, origin.im + step * p.2⟩

/- ============================== theorems ================================ -/

/-- Python float modulo by a positive divisor lands in [0, divisor). -/
theorem floatMod_mem_Ico (a b : Real) (hb : 0 < b) :
    0 ≤ floatMod a b ∧ floatMod a b < b := by
  have hbne : b ≠ 0 := ne_of_gt hb
  have hrw : floatMod a b = b * Int.fract (a / b) := by
    unfold floatMod Int.fract
    field_simp
  constructor
  · rw [hrw]
    exact mul_nonneg hb.le (Int.fract_nonneg _)
  · rw [hrw]
    calc b * Int.fract (a / b) < b * 1 :=
          (mul_lt_mul_left hb).mpr (Int.fract_lt_one _)
    _ = b := mul_one b

/-- Claim C10: predict_state returns a fresh VehicleState whose yaw is
(yaw + pi) mod 2*pi - pi, normalized into the interval from -pi inclusive to
pi exclusive, and the stored engine state is left unmodified. -/
theorem predict_state_normalizes_yaw (e : SensorFusionEngine)
    (dt now : Real) :
    (e.predict_state dt now).2 = e ∧
    (e.predict_state dt now).1.yaw =
      floatMod (e.state.yaw + e.state.yaw_rate * dt + Real.pi)
        (2 * Real.pi) - Real.pi ∧
    -Real.pi ≤ (e.predict_state dt now).1.yaw ∧
    (e.predict_state dt now).1.yaw < Real.pi ∧
    (e.predict_state dt now).1.x = e.state.x + e.state.v_x * dt ∧
    (e.predict_state dt now).1.y = e.state.y + e.state.v_y * dt ∧
    (e.predict_state dt now).1.timestamp = now := by
  have h2pi : (0 : Real) < 2 * Real.pi := by positivity
  have hm := floatMod_mem_Ico
    (e.state.yaw + e.state.yaw_rate * dt + Real.pi) (2 * Real.pi) h2pi
  refine ⟨rfl, rfl, ?_, ?_, rfl, rfl, rfl⟩
  · have := hm.1
    simp only [SensorFusionEngine.predict_state]
    linarith
  · have := hm.2
    simp only [SensorFusionEngine.predict_state]
    linarith

/-- Claim C9: every corner-mutating operation of the polygon editor keeps
the corner count at or below max_corners; adding at the cap leaves the state
unchanged; set_corners truncates to the first max_corners entries; import
keeps at most the first max_corners imported corners. -/
theorem polygon_editor_cap_invariant (ed : PolygonEditor)
    (h : ed.corners.length ≤ ed.max_corners) (lat lon : Real) (idx : Nat)
    (cs imported : List (Real × Real)) (accept : Bool) :
    (ed.add_corner lat lon).corners.length ≤ ed.max_corners ∧
    (ed.max_corners ≤ ed.corners.length → ed.add_corner lat lon = ed) ∧
    (ed.on_map_clicked lat lon).corners.length ≤ ed.max_corners ∧
    (ed.max_corners ≤ ed.corners.length → ed.on_map_clicked lat lon = ed) ∧
    (ed.set_corners cs).corners = cs.take ed.max_corners ∧
    (ed.set_corners cs).corners.length ≤ ed.max_corners ∧
    (ed.on_import_corners imported accept).corners.length ≤
      ed.max_corners ∧
    (ed.max_corners < imported.length → accept = true →
      (ed.on_import_corners imported accept).corners =
        imported.take ed.max_corners) ∧
    (ed.remove_corner idx).corners.length ≤ ed.max_corners ∧
    ed.undo_last_corner.corners.length ≤ ed.max_corners ∧
    ed.clear_all_corners.corners.length ≤ ed.max_corners := by
  have hadd : (ed.add_corner lat lon).corners.length ≤ ed.max_corners := by
    unfold PolygonEditor.add_corner
    by_cases hc : ed.max_corners ≤ ed.corners.length
    · simpa [hc] using h
    · simp only [if_neg hc, List.length_append, List.length_cons,
        List.length_nil]
      omega
  have haddcap : ed.max_corners ≤ ed.corners.length →
      ed.add_corner lat lon = ed := by
    intro hc
    unfold PolygonEditor.add_corner
    simp [hc]
  have hremove : ∀ j, (ed.remove_corner j).corners.length ≤
      ed.max_corners := by
    intro j
    unfold PolygonEditor.remove_corner
    by_cases hc : j < ed.corners.length
    · simp only [if_pos hc]
      exact le_trans (ed.corners.eraseIdx_sublist j).length_le h
    · simpa [hc] using h
  refine ⟨hadd, haddcap, ?_, ?_, rfl, ?_, ?_, ?_, hremove idx, ?_, ?_⟩
  · unfold PolygonEditor.on_map_clicked
    by_cases he : ed.edit_mode
    · by_cases hc : ed.max_corners ≤ ed.corners.length
      · simpa [he, hc] using h
      · simpa [he, hc] using hadd
    · simpa [he] using h
  · intro hc
    unfold PolygonEditor.on_map_clicked
    by_cases he : ed.edit_mode <;> simp [he, hc]
  · unfold PolygonEditor.set_corners
    simp only [List.length_take]
    omega
  · unfold PolygonEditor.on_import_corners
    by_cases hemp : imported.isEmpty
    · simpa [hemp] using h
    · by_cases hlong : ed.max_corners < imported.length
      · by_cases hacc : accept = true
        · simp only [hemp, Bool.false_eq_true, if_false, if_pos hlong,
            hacc, if_true, List.length_take]
          omega
        · simpa [hemp, hlong, hacc] using h
      · simp only [hemp, Bool.false_eq_true, if_false, if_neg hlong]
        omega
  · intro hlong hacc
    unfold PolygonEditor.on_import_corners
    have hemp : imported.isEmpty = false := by
      cases imported with
      | nil => simp at hlong
      | cons a t => simp
    simp [hemp, hlong, hacc]
  · unfold PolygonEditor.undo_last_corner
    by_cases he : ed.corners.isEmpty
    · simpa [he] using h
    · simpa [he] using hremove (ed.corners.length - 1)
  · simp [PolygonEditor.clear_all_corners]

/-- Witness for claim C9 at a concrete editor below its cap. -/
theorem polygon_editor_cap_invariant_witness :
    (PolygonEditor.mk [((0 : Real), (0 : Real))] 100 true).corners.length ≤
      (PolygonEditor.mk [((0 : Real), (0 : Real))] 100 true).max_corners ∧
    ((PolygonEditor.mk [((0 : Real), (0 : Real))] 100 true).add_corner
      1 2).corners.length ≤ 100 :=
  ⟨by simp, (polygon_editor_cap_invariant
    (PolygonEditor.mk [((0 : Real), (0 : Real))] 100 true) (by simp)
    1 2 0 [] [] false).1⟩

/-- Counterexample for claim C6: with a single boundary corner, the preview
entry point returns the warning outcome and no InvalidInputError surfaces,
even when the underlying planner call would raise one; the area routine
returns 0.0 instead of raising. -/
theorem preview_insufficient_corners_counterexample :
    on_preview_paths (fun _ => .error .invalidInput) .grid
      default_flight_params false [(0, 0)] = .warned_min_corners ∧
    calculate_area [(0, 0)] = 0 := by
  constructor
  · simp [on_preview_paths, MIN_CORNERS]
  · simp [calculate_area, MIN_CORNERS_FOR_POLYGON]

/-- Claim C6 amended: a boundary with fewer than 3 vertices is guarded in
the caller, which shows a warning dialog and returns before invoking any
planner (the outcome is independent of the planner), and the area routine
returns 0.0 for it without raising. -/
theorem preview_insufficient_corners_guard
    (runPlanner runPlanner2 : PlannerInvocation →
      Except PlanError (Option (List (Real × Real))))
    (algo : Algo) (fp : FlightParams) (fw : Bool)
    (corners : List (Real × Real)) (h : corners.length < 3) :
    on_preview_paths runPlanner algo fp fw corners =
      .warned_min_corners ∧
    on_preview_paths runPlanner algo fp fw corners =
      on_preview_paths runPlanner2 algo fp fw corners ∧
    calculate_area corners = 0 := by
  have hmin : corners.length < MIN_CORNERS := h
  refine ⟨?_, ?_, ?_⟩
  · simp [on_preview_paths, if_pos hmin]
  · simp [on_preview_paths, if_pos hmin]
  · have hmin2 : corners.length < MIN_CORNERS_FOR_POLYGON := h
    simp [calculate_area, if_pos hmin2]

/-- Witness for claim C6 amended at a concrete two-corner boundary. -/
theorem preview_insufficient_corners_guard_witness :
    ([((0 : Real), (0 : Real)), (1, 1)].length < 3) ∧
    on_preview_paths (fun _ => .ok none) .astar default_flight_params false
      [((0 : Real), (0 : Real)), (1, 1)] = .warned_min_corners :=
  ⟨by simp, (preview_insufficient_corners_guard (fun _ => .ok none)
    (fun _ => .ok (some [])) .astar default_flight_params false
    [((0 : Real), (0 : Real)), (1, 1)] (by simp)).1⟩

/-- Claim C7: the main-window dispatch constructs the sampling planners with
step_size 0.0001 and search_radius 0.0005 in latitude/longitude degrees and
plans directly on the raw degree corners (start, goal and search area are
taken from the corner list unprojected), while the grid-search and coverage
branches receive the spacing flight parameter, whose default is 20.0
metres. -/
theorem planner_unit_mixing (fp : FlightParams) (fw : Bool)
    (corners : List (Real × Real)) (h2 : 2 ≤ corners.length) :
    on_preview_select .rrt fp fw corners =
      .rrtCall 0.0001 0.1 1000 (corners.headD (0, 0))
        (corners.getLastD (0, 0)) (corners_search_area corners) ∧
    on_preview_select .rrt_star fp fw corners =
      .rrtStarCall 0.0001 0.1 1000 0.0005 (corners.headD (0, 0))
        (corners.getLastD (0, 0)) (corners_search_area corners) ∧
    on_preview_select .astar fp fw corners =
      .astarCall fp.spacing .euclidean none (corners.headD (0, 0))
        (corners.getLastD (0, 0)) corners ∧
    on_preview_select .dijkstra fp fw corners =
      .astarCall fp.spacing .euclidean (some 0.0) (corners.headD (0, 0))
        (corners.getLastD (0, 0)) corners ∧
    on_preview_select .grid fp fw corners =
      .coverage fp.spacing fp.angle .GRID fw fp.turn_radius fw corners ∧
    on_preview_select .spiral fp fw corners =
      .coverage fp.spacing fp.angle .SPIRAL fw fp.turn_radius fw corners ∧
    default_flight_params.spacing = 20.0 := by
  refine ⟨?_, ?_, ?_, ?_, rfl, rfl, rfl⟩ <;>
    simp [on_preview_select, if_pos h2]

/-- Witness for claim C7 at a concrete two-corner boundary. -/
theorem planner_unit_mixing_witness :
    (2 ≤ [((0 : Real), (0 : Real)), (1, 1)].length) ∧
    on_preview_select .rrt default_flight_params false
      [((0 : Real), (0 : Real)), (1, 1)] =
      .rrtCall 0.0001 0.1 1000
        ([((0 : Real), (0 : Real)), (1, 1)].headD (0, 0))
        ([((0 : Real), (0 : Real)), (1, 1)].getLastD (0, 0))
        (corners_search_area [((0 : Real), (0 : Real)), (1, 1)]) :=
  ⟨by simp, (planner_unit_mixing default_flight_params false
    [((0 : Real), (0 : Real)), (1, 1)] (by simp)).1⟩

/-- Counterexample for claim C1: the waypoint distance of one degree of
longitude at the equator evaluates to 111111.0 m, a per-degree factor that
matches neither 6,371,000 * pi / 180 nor 6,378,137 * pi / 180; so the code
does not use the equirectangular formula with either prescribed radius. -/
theorem distance_factor_counterexample :
    total_distance [(0, 0), (0, 1)] = 111111 ∧
    (111111 : Real) ≠ 6371000 * Real.pi / 180 ∧
    (111111 : Real) ≠ 6378137 * Real.pi / 180 := by
  refine ⟨?_, ?_, ?_⟩
  · have hc : Real.cos (radians ((0 + 0) / 2)) = 1 := by
      norm_num [radians, Real.cos_zero]
    simp only [total_distance, segment_distance, List.zip, List.tail,
      List.zipWith, List.map, List.sum_cons, List.sum_nil]
    rw [hc]
    have h1 : ((0 : Real) - 0) * 111111.0 = 0 := by norm_num
    have h2 : ((1 : Real) - 0) * 111111.0 * 1 = 111111 := by norm_num
    rw [h1, h2]
    have : (0 : Real) ^ 2 + (111111 : Real) ^ 2 = 111111 ^ 2 := by norm_num
    rw [this, Real.sqrt_sq (by norm_num : (0 : Real) ≤ 111111)]
    norm_num
  · intro h
    have hpi := Real.pi_gt_d6
    nlinarith
  · intro h
    have hpi := Real.pi_gt_d6
    nlinarith

/-- Claim C1 amended: the code projects and measures with a fixed factor of
111111.0 metres per degree — equal to neither prescribed radius times
pi / 180 — taking the cosine at the polygon centroid latitude in the area
projection and at each segment mid-latitude in the total-distance loop. -/
theorem distance_code_formula :
    (∀ p q : Real × Real, segment_distance p q =
      Real.sqrt (((q.1 - p.1) * 111111.0) ^ 2 +
        ((q.2 - p.2) * 111111.0 *
          Real.cos (radians ((p.1 + q.1) / 2))) ^ 2)) ∧
    (∀ clat clon lat lon : Real, latlon_to_xy_area clat clon lat lon =
      ((lon - clon) * 111111.0 * Real.cos (radians clat),
       (lat - clat) * 111111.0)) ∧
    (∀ path : List (Real × Real), total_distance path =
      ((path.zip path.tail).map fun pq =>
        segment_distance pq.1 pq.2).sum) ∧
    (111111.0 : Real) ≠ 6371000 * Real.pi / 180 ∧
    (111111.0 : Real) ≠ 6378137 * Real.pi / 180 := by
  refine ⟨fun p q => rfl, fun clat clon lat lon => rfl, fun path => rfl,
    ?_, ?_⟩
  · intro h
    have hpi := Real.pi_gt_d6
    nlinarith
  · intro h
    have hpi := Real.pi_gt_d6
    nlinarith

/-- Claim C3: for a projection origin at which the cosine factor does not
vanish, converting a geodetic point to local coordinates and back recovers
it exactly, hence within 1e-6 degrees, for every point whose projection lies
within 50 km of the origin. -/
theorem degrees_radians (x : Real) : degrees (radians x) = x := by
  have hpi : Real.pi ≠ 0 := Real.pi_ne_zero
  unfold degrees radians
  field_simp

theorem coordinate_roundtrip (t : CoordinateTransform) (lat lon : Real)
    (hcos : Real.cos (radians t.center_lat) ≠ 0)
    (_hdist : (t.latlon_to_xy lat lon).1 ^ 2 +
      (t.latlon_to_xy lat lon).2 ^ 2 ≤ 50000 ^ 2) :
    |(t.xy_to_latlon (t.latlon_to_xy lat lon).1
        (t.latlon_to_xy lat lon).2).1 - lat| ≤ 1e-6 ∧
    |(t.xy_to_latlon (t.latlon_to_xy lat lon).1
        (t.latlon_to_xy lat lon).2).2 - lon| ≤ 1e-6 := by
  have hR : (R_EARTH : Real) ≠ 0 := by norm_num [R_EARTH]
  have hlat : (t.xy_to_latlon (t.latlon_to_xy lat lon).1
      (t.latlon_to_xy lat lon).2).1 = lat := by
    simp only [CoordinateTransform.xy_to_latlon,
      CoordinateTransform.latlon_to_xy, geo_to_local, local_to_geo]
    rw [mul_div_cancel_right₀ _ hR, degrees_radians]
    ring
  have hlon : (t.xy_to_latlon (t.latlon_to_xy lat lon).1
      (t.latlon_to_xy lat lon).2).2 = lon := by
    simp only [CoordinateTransform.xy_to_latlon,
      CoordinateTransform.latlon_to_xy, geo_to_local, local_to_geo]
    rw [mul_assoc, mul_div_cancel_right₀ _ (mul_ne_zero hR hcos),
      degrees_radians]
    ring
  rw [hlat, hlon]
  norm_num

/-- Witness for claim C3 at the origin itself. -/
theorem coordinate_roundtrip_witness :
    Real.cos (radians (CoordinateTransform.mk 0 0).center_lat) ≠ 0 ∧
    ((CoordinateTransform.mk 0 0).latlon_to_xy 0 0).1 ^ 2 +
      ((CoordinateTransform.mk 0 0).latlon_to_xy 0 0).2 ^ 2 ≤ 50000 ^ 2 ∧
    |((CoordinateTransform.mk 0 0).xy_to_latlon
        ((CoordinateTransform.mk 0 0).latlon_to_xy 0 0).1
        ((CoordinateTransform.mk 0 0).latlon_to_xy 0 0).2).1 - 0| ≤ 1e-6 := by
  have hcos : Real.cos (radians (CoordinateTransform.mk 0 0).center_lat) ≠
      0 := by
    norm_num [radians, Real.cos_zero]
  have hdist : ((CoordinateTransform.mk 0 0).latlon_to_xy 0 0).1 ^ 2 +
      ((CoordinateTransform.mk 0 0).latlon_to_xy 0 0).2 ^ 2 ≤ 50000 ^ 2 := by
    simp only [CoordinateTransform.latlon_to_xy, geo_to_local, radians]
    norm_num
  exact ⟨hcos, hdist,
    (coordinate_roundtrip (CoordinateTransform.mk 0 0) 0 0 hcos hdist).1⟩

/-- Reading another cell is unaffected by a write. -/
theorem RefStore.read_write_ne {α : Type} (st : RefStore α) (r1 r2 : Nat)
    (v : List α) (h : r1 ≠ r2) : (st.write r1 v).read r2 = st.read r2 := by
  simp [RefStore.read, RefStore.write, List.getD_eq_getElem?_getD,
    List.getElem?_set_ne h]

/-- A freshly allocated cell holds the allocated value. -/
theorem RefStore.read_alloc_new {α : Type} (st : RefStore α) (v : List α) :
    (st.alloc v).1.read (st.alloc v).2 = v := by
  simp [RefStore.read, RefStore.alloc, List.getD_eq_getElem?_getD]

/-- Allocation does not disturb existing cells. -/
theorem RefStore.read_alloc_old {α : Type} (st : RefStore α) (v : List α)
    (r : Nat) (h : r < st.cells.length) :
    (st.alloc v).1.read r = st.read r := by
  simp [RefStore.read, RefStore.alloc, List.getD_eq_getElem?_getD,
    List.getElem?_append_left h]

/-- Counterexample for claim C8: applying the obstacle dialog hands the main
window the internal list itself, so a later in-place mutation through the
received reference changes the dialog state — the returned list is not a
fresh copy. -/
theorem obstacle_alias_counterexample :
    (MainWindowObstacles.on_obstacles_changed ⟨0⟩
        ((dialog_init (⟨[[1]]⟩ : RefStore Nat) (some 0)).2.on_apply)).obstacles =
      (dialog_init (⟨[[1]]⟩ : RefStore Nat) (some 0)).2.obstacles ∧
    ((dialog_init (⟨[[1]]⟩ : RefStore Nat) (some 0)).1.write
        (MainWindowObstacles.on_obstacles_changed ⟨0⟩
          ((dialog_init (⟨[[1]]⟩ : RefStore Nat) (some 0)).2.on_apply)).obstacles
        [1, 2]).read
      (dialog_init (⟨[[1]]⟩ : RefStore Nat) (some 0)).2.obstacles = [1, 2] ∧
    (dialog_init (⟨[[1]]⟩ : RefStore Nat) (some 0)).1.read
      (dialog_init (⟨[[1]]⟩ : RefStore Nat) (some 0)).2.obstacles = [1] := by
  refine ⟨rfl, rfl, rfl⟩

/-- Claim C8 amended: the dialog constructor copies the caller list, and the
get_obstacles / get_corners accessors return fresh copies, so mutation
through the caller list or through an accessor result leaves the component
state unchanged; the exception is the apply signal, which emits the internal
obstacle list by reference. -/
theorem defensive_copy_amended {α : Type} (st : RefStore α) (r : Nat)
    (v : List α) (d : ObstacleManagerDialog) (ed : PolygonEditorRefs)
    (hr : r < st.cells.length) (hd : d.obstacles < st.cells.length)
    (hed : ed.corners < st.cells.length) :
    ((dialog_init st (some r)).2.obstacles ≠ r ∧
      ((dialog_init st (some r)).1.write r v).read
          (dialog_init st (some r)).2.obstacles =
        (dialog_init st (some r)).1.read
          (dialog_init st (some r)).2.obstacles ∧
      (dialog_init st (some r)).1.read (dialog_init st (some r)).2.obstacles =
        st.read r) ∧
    ((d.get_obstacles st).2 ≠ d.obstacles ∧
      ((d.get_obstacles st).1.write (d.get_obstacles st).2 v).read
          d.obstacles = st.read d.obstacles) ∧
    ((ed.get_corners st).2 ≠ ed.corners ∧
      ((ed.get_corners st).1.write (ed.get_corners st).2 v).read ed.corners =
        st.read ed.corners) ∧
    d.on_apply = d.obstacles := by
  refine ⟨⟨?_, ?_, ?_⟩, ⟨?_, ?_⟩, ⟨?_, ?_⟩, rfl⟩
  · simp only [dialog_init, RefStore.alloc]
    omega
  · apply RefStore.read_write_ne
    simp only [dialog_init, RefStore.alloc]
    omega
  · simp only [dialog_init]
    exact RefStore.read_alloc_new st (st.read r)
  · simp only [ObstacleManagerDialog.get_obstacles, RefStore.alloc]
    omega
  · rw [RefStore.read_write_ne]
    · exact RefStore.read_alloc_old st _ _ hd
    · simp only [ObstacleManagerDialog.get_obstacles, RefStore.alloc]
      omega
  · simp only [PolygonEditorRefs.get_corners, RefStore.alloc]
    omega
  · rw [RefStore.read_write_ne]
    · exact RefStore.read_alloc_old st _ _ hed
    · simp only [PolygonEditorRefs.get_corners, RefStore.alloc]
      omega

/-- Witness for claim C8 amended on a concrete two-cell store. -/
theorem defensive_copy_amended_witness :
    ((0 : Nat) < (⟨[[5], [7]]⟩ : RefStore Nat).cells.length ∧
      (1 : Nat) < (⟨[[5], [7]]⟩ : RefStore Nat).cells.length) ∧
    ((dialog_init (⟨[[5], [7]]⟩ : RefStore Nat) (some 0)).2.obstacles ≠ 0 ∧
      ((dialog_init (⟨[[5], [7]]⟩ : RefStore Nat) (some 0)).1.write 0
          [9]).read (dialog_init (⟨[[5], [7]]⟩ : RefStore Nat)
          (some 0)).2.obstacles =
        (dialog_init (⟨[[5], [7]]⟩ : RefStore Nat) (some 0)).1.read
          (dialog_init (⟨[[5], [7]]⟩ : RefStore Nat) (some 0)).2.obstacles ∧
      (dialog_init (⟨[[5], [7]]⟩ : RefStore Nat) (some 0)).1.read
          (dialog_init (⟨[[5], [7]]⟩ : RefStore Nat) (some 0)).2.obstacles =
        (⟨[[5], [7]]⟩ : RefStore Nat).read 0) :=
  ⟨⟨by simp, by simp⟩,
    (defensive_copy_amended (⟨[[5], [7]]⟩ : RefStore Nat) 0 [9]
      ⟨1⟩ ⟨1, 100⟩ (by simp) (by simp) (by simp)).1⟩

/-- Every path produced by the RRT growth loop ends at the goal, so a none
result is the failure signal and a some result is a goal-reaching path. -/
theorem rrt_loop_ends_at_goal (cc : Real × Real → Real × Real → Bool)
    (samples : Nat → Real × Real) (coin : Nat → Bool) (step : Real)
    (goal : Real × Real) :
    ∀ (fuel : Nat) (tree : List RRTNode) (p : List (Real × Real)),
      rrt_loop cc samples coin step goal fuel tree = some p →
      p.getLast? = some goal := by
  intro fuel
  induction fuel with
  | zero =>
      intro tree p h
      simp [rrt_loop] at h
  | succ n ih =>
      intro tree p h
      simp only [rrt_loop] at h
      repeat' split at h
      all_goals
        first
          | exact ih _ p h
          | (have hp := Option.some.inj h
             subst hp
             exact List.getLast?_concat _)

/-- Claim C5: with well-formed parameters the sampling planner always
returns a normal value — an optional path — and never an error; every
returned path is nonempty and reaches the goal, so the none result is the
budget-exhaustion failure signal; the error value occurs exactly for
malformed input rejected at entry. -/
theorem rrt_failure_is_value (cc : Real × Real → Real × Real → Bool)
    (samples : Nat → Real × Real) (coin : Nat → Bool) (step rate : Real)
    (mi : Nat) (start goal : Real × Real) (hstep : 0 < step)
    (hrate : 0 ≤ rate ∧ rate ≤ 1) (hmi : 0 < mi) :
    (∃ o, rrt_plan cc samples coin step rate mi start goal =
      Except.ok o) ∧
    (∀ p, rrt_plan cc samples coin step rate mi start goal =
      Except.ok (some p) → p ≠ [] ∧ p.getLast? = some goal) ∧
    (∀ s r m, (¬ (0 < s) ∨ ¬ (0 ≤ r ∧ r ≤ 1) ∨ m = 0) →
      rrt_plan cc samples coin s r m start goal =
        Except.error PlanError.invalidInput) := by
  have hC : ¬ (¬ (0 < step) ∨ ¬ (0 ≤ rate ∧ rate ≤ 1) ∨ mi = 0) := by
    push_neg
    exact ⟨hstep, hrate, by omega⟩
  have hplan : rrt_plan cc samples coin step rate mi start goal =
      if start = goal then Except.ok (some [start])
      else Except.ok
        (rrt_loop cc samples coin step goal mi [⟨start, none, 0⟩]) := by
    rw [rrt_plan, if_neg hC]
  refine ⟨?_, ?_, ?_⟩
  · by_cases hsg : start = goal
    · exact ⟨some [start], by rw [hplan, if_pos hsg]⟩
    · exact ⟨rrt_loop cc samples coin step goal mi [⟨start, none, 0⟩],
        by rw [hplan, if_neg hsg]⟩
  · intro p hp
    rw [hplan] at hp
    by_cases hsg : start = goal
    · rw [if_pos hsg] at hp
      simp only [Except.ok.injEq, Option.some.injEq] at hp
      subst hp
      simp [hsg]
    · rw [if_neg hsg] at hp
      simp only [Except.ok.injEq] at hp
      have hgl := rrt_loop_ends_at_goal cc samples coin step goal mi
        [⟨start, none, 0⟩] p hp
      refine ⟨?_, hgl⟩
      intro hnil
      subst hnil
      simp at hgl
  · intro s r m hbad
    rw [rrt_plan, if_pos hbad]

/-- Witness for claim C5 with a collision-free checker and unit budget. -/
theorem rrt_failure_is_value_witness :
    ((0 : Real) < 1 ∧ ((0 : Real) ≤ 0 ∧ (0 : Real) ≤ 1) ∧ 0 < 1) ∧
    (∃ o, rrt_plan (fun _ _ => false) (fun _ => (0, 0)) (fun _ => false)
      1 0 1 (0, 0) (1, 0) = Except.ok o) :=
  ⟨⟨by norm_num, ⟨le_refl 0, by norm_num⟩, Nat.one_pos⟩,
    (rrt_failure_is_value (fun _ _ => false) (fun _ => (0, 0))
      (fun _ => false) 1 0 1 (0, 0) (1, 0) (by norm_num)
      ⟨le_refl 0, by norm_num⟩ Nat.one_pos).1⟩

/-- The shoelace loop written with crossTerm. -/
theorem shoelaceSum_eq_crossTerm (pts : List (Real × Real)) :
    shoelaceSum pts = ∑ i ∈ Finset.range pts.length,
      crossTerm (pts.getD i (0, 0))
        (pts.getD ((i + 1) % pts.length) (0, 0)) := rfl

/-- getD at an in-range index is the indexed element. -/
theorem getD_eq_getElem_of_lt {α : Type} (l : List α) (n : Nat) (d : α)
    (h : n < l.length) : l.getD n d = l[n] := by
  rw [List.getD_eq_getElem?_getD, List.getElem?_eq_getElem h,
    Option.getD_some]

/-- The shoelace loop over a list of length m+1 as a sum over the cyclic
index group Fin (m+1). -/
theorem shoelace_fin (pts : List (Real × Real)) (m : Nat)
    (hn : pts.length = m + 1) :
    shoelaceSum pts = ∑ i : Fin (m + 1),
      crossTerm (pts.getD i.val (0, 0))
        (pts.getD ((i + 1 : Fin (m + 1)).val) (0, 0)) := by
  rw [shoelaceSum_eq_crossTerm, hn,
    ← Fin.sum_univ_eq_sum_range
      (fun j => crossTerm (pts.getD j (0, 0))
        (pts.getD ((j + 1) % (m + 1)) (0, 0))) (m + 1)]
  apply Finset.sum_congr rfl
  intro i _
  have hidx : (i.val + 1) % (m + 1) = (i + 1 : Fin (m + 1)).val := by
    rw [Fin.val_add, Fin.val_one' (m + 1), Nat.add_mod_mod]
  rw [hidx]

/-- Indexing a rotated list through the cyclic group Fin (m+1). -/
theorem rotate_getD_fin (l : List (Real × Real)) (k m : Nat)
    (hn : l.length = m + 1) (i : Fin (m + 1)) :
    (l.rotate k).getD i.val (0, 0) =
      l.getD ((i + (k : Fin (m + 1))).val) (0, 0) := by
  have hlt : i.val < (l.rotate k).length := by
    rw [List.length_rotate, hn]
    exact i.isLt
  have hlt2 : (i + (k : Fin (m + 1))).val < l.length := by
    rw [hn]
    exact (i + (k : Fin (m + 1))).isLt
  rw [getD_eq_getElem_of_lt _ _ _ hlt, getD_eq_getElem_of_lt _ _ _ hlt2,
    List.getElem_rotate]
  congr 1
  rw [hn, Fin.val_add]
  have hk : ((k : Fin (m + 1))).val = k % (m + 1) := by
    simp [Fin.val_natCast]
  rw [hk, Nat.add_mod_mod]

/-- Indexing a reversed list through negation in the cyclic group. -/
theorem reverse_getD_fin (l : List (Real × Real)) (m : Nat)
    (hn : l.length = m + 1) (i : Fin (m + 1)) :
    l.reverse.getD i.val (0, 0) =
      l.getD ((-(i + 1) : Fin (m + 1)).val) (0, 0) := by
  have hlt : i.val < l.reverse.length := by
    rw [List.length_reverse, hn]
    exact i.isLt
  have hlt2 : ((-(i + 1) : Fin (m + 1)).val) < l.length := by
    rw [hn]
    exact (-(i + 1) : Fin (m + 1)).isLt
  rw [getD_eq_getElem_of_lt _ _ _ hlt, getD_eq_getElem_of_lt _ _ _ hlt2,
    List.getElem_reverse]
  congr 1
  have hneg : (-(i + 1) : Fin (m + 1)).val =
      (m + 1 - ((i + 1 : Fin (m + 1)).val)) % (m + 1) := rfl
  have hplus : (i + 1 : Fin (m + 1)).val = (i.val + 1) % (m + 1) := by
    rw [Fin.val_add, Fin.val_one' (m + 1), Nat.add_mod_mod]
  have hiv : i.val ≤ m := Nat.lt_succ_iff.mp i.isLt
  rw [hn, hneg, hplus]
  by_cases hm : i.val = m
  · rw [hm]
    simp [Nat.mod_self]
  · have h1 : i.val + 1 < m + 1 := by omega
    rw [Nat.mod_eq_of_lt h1, Nat.mod_eq_of_lt (by omega : m + 1 - (i.val + 1) < m + 1)]
    omega

/-- The shoelace sum is invariant under any rotation of the vertex list. -/
theorem shoelace_rotate (l : List (Real × Real)) (k : Nat) :
    shoelaceSum (l.rotate k) = shoelaceSum l := by
  cases hL : l.length with
  | zero =>
      have hnil : l = [] := List.length_eq_zero.mp hL
      subst hnil
      simp [List.rotate_nil]
  | succ m =>
      have h1 : (l.rotate k).length = m + 1 := by
        rw [List.length_rotate, hL]
      rw [shoelace_fin _ m h1, shoelace_fin _ m hL,
        ← Equiv.sum_comp (Equiv.addRight ((k : Fin (m + 1))))
          (fun j => crossTerm (l.getD j.val (0, 0))
            (l.getD ((j + 1 : Fin (m + 1)).val) (0, 0)))]
      apply Finset.sum_congr rfl
      intro i _
      simp only [Equiv.coe_addRight]
      rw [rotate_getD_fin l k m hL i, rotate_getD_fin l k m hL (i + 1)]
      have harith : (i + 1 + (k : Fin (m + 1))) =
          (i + (k : Fin (m + 1)) + 1) := by ring
      rw [harith]

/-- The shoelace sum is negated by reversing the vertex list. -/
theorem shoelace_reverse (l : List (Real × Real)) :
    shoelaceSum l.reverse = -shoelaceSum l := by
  cases hL : l.length with
  | zero =>
      have hnil : l = [] := List.length_eq_zero.mp hL
      subst hnil
      simp [shoelaceSum]
  | succ m =>
      have h1 : l.reverse.length = m + 1 := by
        rw [List.length_reverse, hL]
      rw [shoelace_fin _ m h1, shoelace_fin _ m hL]
      have step1 : ∀ i : Fin (m + 1),
          crossTerm (l.reverse.getD i.val (0, 0))
            (l.reverse.getD ((i + 1 : Fin (m + 1)).val) (0, 0)) =
          crossTerm (l.getD ((-(i + 1) : Fin (m + 1)).val) (0, 0))
            (l.getD ((-(i + 1) + -1 : Fin (m + 1)).val) (0, 0)) := by
        intro i
        rw [reverse_getD_fin l m hL i, reverse_getD_fin l m hL (i + 1)]
        have harith : (-(i + 1 + 1) : Fin (m + 1)) = -(i + 1) + -1 := by
          ring
        rw [harith]
      calc ∑ i : Fin (m + 1),
            crossTerm (l.reverse.getD i.val (0, 0))
              (l.reverse.getD ((i + 1 : Fin (m + 1)).val) (0, 0))
          = ∑ i : Fin (m + 1),
            crossTerm (l.getD ((-(i + 1) : Fin (m + 1)).val) (0, 0))
              (l.getD ((-(i + 1) + -1 : Fin (m + 1)).val) (0, 0)) :=
            Finset.sum_congr rfl fun i _ => step1 i
        _ = ∑ j : Fin (m + 1),
            crossTerm (l.getD ((j + 1 : Fin (m + 1)).val) (0, 0))
              (l.getD (j.val) (0, 0)) := by
            rw [← Equiv.sum_comp
              ((Equiv.neg (Fin (m + 1))).trans
                (Equiv.addRight (-2 : Fin (m + 1))))
              (fun j => crossTerm (l.getD ((j + 1 : Fin (m + 1)).val) (0, 0))
                (l.getD (j.val) (0, 0)))]
            apply Finset.sum_congr rfl
            intro i _
            simp only [Equiv.trans_apply, Equiv.neg_apply,
              Equiv.coe_addRight]
            have h1 : (-i + -2 + 1 : Fin (m + 1)) = -(i + 1) := by ring
            have h2 : (-i + -2 : Fin (m + 1)) = -(i + 1) + -1 := by ring
            rw [h1, h2]
        _ = ∑ j : Fin (m + 1),
            -crossTerm (l.getD (j.val) (0, 0))
              (l.getD ((j + 1 : Fin (m + 1)).val) (0, 0)) := by
            apply Finset.sum_congr rfl
            intro j _
            unfold crossTerm
            ring
        _ = -∑ j : Fin (m + 1),
            crossTerm (l.getD (j.val) (0, 0))
              (l.getD ((j + 1 : Fin (m + 1)).val) (0, 0)) :=
            Finset.sum_neg_distrib

/-- calculate_area is invariant under rotation of the corner list. -/
theorem calculate_area_rotate (l : List (Real × Real)) (k : Nat) :
    calculate_area (l.rotate k) = calculate_area l := by
  by_cases hlt : l.length < MIN_CORNERS_FOR_POLYGON
  · have hlt2 : (l.rotate k).length < MIN_CORNERS_FOR_POLYGON := by
      rw [List.length_rotate]
      exact hlt
    simp [calculate_area, hlt, hlt2]
  · have hlt2 : ¬ (l.rotate k).length < MIN_CORNERS_FOR_POLYGON := by
      rw [List.length_rotate]
      exact hlt
    simp only [calculate_area, if_neg hlt, if_neg hlt2]
    have hrot_sum : ∀ xs : List Real, (xs.rotate k).sum = xs.sum :=
      fun xs => (xs.rotate_perm k).sum_eq
    simp only [List.length_rotate, List.map_rotate, shoelace_rotate,
      hrot_sum]

/-- calculate_area is invariant under reversal of the corner list. -/
theorem calculate_area_reverse (l : List (Real × Real)) :
    calculate_area l.reverse = calculate_area l := by
  by_cases hlt : l.length < MIN_CORNERS_FOR_POLYGON
  · have hlt2 : l.reverse.length < MIN_CORNERS_FOR_POLYGON := by
      rw [List.length_reverse]
      exact hlt
    simp [calculate_area, hlt, hlt2]
  · have hlt2 : ¬ l.reverse.length < MIN_CORNERS_FOR_POLYGON := by
      rw [List.length_reverse]
      exact hlt
    simp only [calculate_area, if_neg hlt, if_neg hlt2]
    have hrev_sum : ∀ xs : List Real, xs.reverse.sum = xs.sum :=
      fun xs => xs.reverse_perm.sum_eq
    simp only [List.length_reverse, List.map_reverse, shoelace_reverse,
      abs_neg, hrev_sum]

/-- calculate_area never returns a negative value. -/
theorem calculate_area_nonneg (l : List (Real × Real)) :
    0 ≤ calculate_area l := by
  unfold calculate_area
  split
  · exact le_refl 0
  · positivity

/-- Claim C2: for a polygon of at least 3 vertices the computed area is
unchanged under cyclic rotation of the vertex list and under reversal, and
it is always nonnegative because the absolute shoelace value is returned. -/
theorem area_vertex_invariance (l : List (Real × Real))
    (_h3 : 3 ≤ l.length) (k : Nat) :
    calculate_area (l.rotate k) = calculate_area l ∧
    calculate_area l.reverse = calculate_area l ∧
    0 ≤ calculate_area l :=
  ⟨calculate_area_rotate l k, calculate_area_reverse l,
    calculate_area_nonneg l⟩

/-- Witness for claim C2 on a concrete right triangle. -/
theorem area_vertex_invariance_witness :
    3 ≤ ([((0 : Real), (0 : Real)), (1, 0), (0, 1)]).length ∧
    calculate_area ([((0 : Real), (0 : Real)), (1, 0), (0, 1)].rotate 1) =
      calculate_area [((0 : Real), (0 : Real)), (1, 0), (0, 1)] :=
  ⟨by simp, (area_vertex_invariance [((0 : Real), (0 : Real)), (1, 0), (0, 1)]
    (by simp) 1).1⟩

/-- argminF returns none exactly on the empty open list. -/
theorem argminF_eq_none {V : Type} (φ : V → Real)
    (l : List (SearchEntry V)) (h : argminF φ l = none) : l = [] := by
  cases l with
  | nil => rfl
  | cons e es =>
      rw [argminF] at h
      cases harg : argminF φ es with
      | none => rw [harg] at h; simp at h
      | some pr =>
          rw [harg] at h
          by_cases hlt : fval φ pr.1 < fval φ e <;> simp [hlt] at h

/-- The entry chosen by argminF is a member of the open list, has minimal
f-value, and every other member survives into the remainder. -/
theorem argminF_spec {V : Type} (φ : V → Real) :
    ∀ (l : List (SearchEntry V)) (e : SearchEntry V)
      (rest : List (SearchEntry V)), argminF φ l = some (e, rest) →
      e ∈ l ∧ (∀ x ∈ l, fval φ e ≤ fval φ x) ∧ (∀ x ∈ rest, x ∈ l) ∧
      (∀ x ∈ l, x = e ∨ x ∈ rest) := by
  intro l
  induction l with
  | nil => intro e rest h; simp [argminF] at h
  | cons e0 es ih =>
      intro e rest h
      rw [argminF] at h
      cases harg : argminF φ es with
      | none =>
          have hnil := argminF_eq_none φ es harg
          rw [harg] at h
          simp only [Option.some.injEq, Prod.mk.injEq] at h
          obtain ⟨he, hrest⟩ := h
          subst he
          subst hrest
          subst hnil
          refine ⟨List.mem_cons_self _ _, ?_, ?_, ?_⟩
          · intro x hx
            rcases List.mem_cons.mp hx with h1 | h1
            · rw [h1]
            · simp at h1
          · intro x hx
            simp at hx
          · intro x hx
            rcases List.mem_cons.mp hx with h1 | h1
            · exact Or.inl h1
            · simp at h1
      | some pr =>
          obtain ⟨b, rest2⟩ := pr
          have hb := ih b rest2 harg
          rw [harg] at h
          by_cases hlt : fval φ b < fval φ e0
          · simp only [if_pos hlt, Option.some.injEq, Prod.mk.injEq] at h
            obtain ⟨he, hrest⟩ := h
            subst he
            subst hrest
            refine ⟨List.mem_cons_of_mem _ hb.1, ?_, ?_, ?_⟩
            · intro x hx
              rcases List.mem_cons.mp hx with h1 | h1
              · rw [h1]; exact le_of_lt hlt
              · exact hb.2.1 x h1
            · intro x hx
              rcases List.mem_cons.mp hx with h1 | h1
              · rw [h1]; exact List.mem_cons_self _ _
              · exact List.mem_cons_of_mem _ (hb.2.2.1 x h1)
            · intro x hx
              rcases List.mem_cons.mp hx with h1 | h1
              · exact Or.inr (by rw [h1]; exact List.mem_cons_self _ _)
              · rcases hb.2.2.2 x h1 with h2 | h2
                · exact Or.inl h2
                · exact Or.inr (List.mem_cons_of_mem _ h2)
          · simp only [if_neg hlt, Option.some.injEq, Prod.mk.injEq] at h
            obtain ⟨he, hrest⟩ := h
            subst he
            subst hrest
            refine ⟨List.mem_cons_self _ _, ?_, ?_, ?_⟩
            · intro x hx
              rcases List.mem_cons.mp hx with h1 | h1
              · rw [h1]
              · exact le_trans (not_lt.mp hlt) (hb.2.1 x h1)
            · intro x hx
              exact List.mem_cons_of_mem _ hx
            · intro x hx
              rcases List.mem_cons.mp hx with h1 | h1
              · exact Or.inl h1
              · exact Or.inr h1

/-- Along a valid reversed path, the value cost-so-far plus potential is
monotone from any suffix to the whole path, given the consistency
inequality for the potential. -/
theorem fval_mono_path {V : Type} (adj : V → List V) (c : V → V → Real)
    (φ : V → Real) (hφ : ∀ u v, v ∈ adj u → φ u ≤ c u v + φ v)
    (start : V) :
    ∀ (vt : List V) (v : V), ValidRPath adj start (v :: vt) →
      ∀ w t, (w :: t) <:+ (v :: vt) →
        rcost c (w :: t) + φ w ≤ rcost c (v :: vt) + φ v := by
  intro vt
  induction vt with
  | nil =>
      intro v _ w t hsuf
      rcases List.suffix_cons_iff.mp hsuf with h1 | h1
      · injection h1 with hw ht
        subst hw
        subst ht
        exact le_refl _
      · have := List.suffix_nil.mp h1
        simp at this
  | cons u rest ih =>
      intro v hval w t hsuf
      rcases List.suffix_cons_iff.mp hsuf with h1 | h1
      · injection h1 with hw ht
        subst hw
        subst ht
        exact le_refl _
      · have hval2 : ValidRPath adj start (u :: rest) := hval.2
        have hedge : v ∈ adj u := hval.1
        have hstep := ih u hval2 w t h1
        have hcons := hφ u v hedge
        have hrw : rcost c (v :: u :: rest) =
            c u v + rcost c (u :: rest) := rfl
        rw [hrw]
        linarith

/-- Under the invariant, every valid path to an unsettled node has an open
entry sitting on one of its prefixes at no more than the prefix cost. -/
theorem search_frontier {V : Type} [DecidableEq V] (adj : V → List V)
    (c : V → V → Real) (start goal : V) (closed : List (V × Real))
    (opn : List (SearchEntry V))
    (inv : SearchInv adj c start goal closed opn) :
    ∀ P, ValidRPath adj start P → ∀ z, P.head? = some z →
      z ∉ closedKeys closed →
      ∃ e ∈ opn, ∃ w t, (w :: t) <:+ P ∧ e.node = w ∧
        e.g ≤ rcost c (w :: t) := by
  intro P
  induction P with
  | nil =>
      intro hval z hz hnc
      exact hval.elim
  | cons v vt ih =>
      cases vt with
      | nil =>
          intro hval z hz hnc
          have hv : v = start := hval
          have hzv : z = v := by
            simp only [List.head?_cons, Option.some.injEq] at hz
            exact hz.symm
          have hns : start ∉ closedKeys closed := by
            rw [← hv, ← hzv]
            exact hnc
          obtain ⟨e, he, hnode, hg⟩ := inv.start_open hns
          refine ⟨e, he, v, [], List.suffix_refl _, ?_, ?_⟩
          · rw [hnode, hv]
          · have : rcost c [v] = 0 := rfl
            rw [this]
            exact hg
      | cons u rest =>
          intro hval z hz hnc
          have hzv : z = v := by
            simp only [List.head?_cons, Option.some.injEq] at hz
            exact hz.symm
          have hedge : v ∈ adj u := hval.1
          have hvalu : ValidRPath adj start (u :: rest) := hval.2
          by_cases hu : u ∈ closedKeys closed
          · rcases List.mem_map.mp hu with ⟨p, hp, hp1⟩
            have hopt := inv.closed_opt p hp (u :: rest) hvalu
              (by simp [hp1])
            have hvnc : v ∉ closedKeys closed := by
              rw [← hzv]
              exact hnc
            have hce := inv.closed_edge p hp v (by rw [hp1]; exact hedge)
              hvnc
            obtain ⟨e, he, hnode, hg⟩ := hce
            refine ⟨e, he, v, u :: rest, List.suffix_refl _, hnode, ?_⟩
            have hrw : rcost c (v :: u :: rest) =
                c u v + rcost c (u :: rest) := rfl
            rw [hrw, hp1] at *
            linarith
          · obtain ⟨e, he, w, t, hsuf, hnode, hg⟩ :=
              ih hvalu u (by simp) hu
            exact ⟨e, he, w, t,
              hsuf.trans (List.suffix_cons v (u :: rest)), hnode, hg⟩

/-- The popped minimum-f entry is bounded by cost plus potential of every
valid path to every unsettled node. -/
theorem popped_min_f {V : Type} [DecidableEq V] (adj : V → List V)
    (c : V → V → Real) (φ : V → Real)
    (hφ : ∀ u v, v ∈ adj u → φ u ≤ c u v + φ v) (start goal : V)
    (closed : List (V × Real)) (opn : List (SearchEntry V))
    (inv : SearchInv adj c start goal closed opn)
    (e0 : SearchEntry V) (rest : List (SearchEntry V))
    (hpop : argminF φ opn = some (e0, rest)) (P : List V) (z : V)
    (hvP : ValidRPath adj start P) (hhead : P.head? = some z)
    (hz : z ∉ closedKeys closed) :
    fval φ e0 ≤ rcost c P + φ z := by
  obtain ⟨e, he, w, t, hsuf, hnode, hg⟩ :=
    search_frontier adj c start goal closed opn inv P hvP z hhead hz
  have hmin := (argminF_spec φ opn e0 rest hpop).2.1 e he
  cases P with
  | nil => simp at hhead
  | cons p0 pt =>
      have hp0 : p0 = z := by
        simp only [List.head?_cons, Option.some.injEq] at hhead
        exact hhead
      subst hp0
      have hmono := fval_mono_path adj c φ hφ start pt p0 hvP w t hsuf
      calc fval φ e0 ≤ fval φ e := hmin
        _ = e.g + φ w := by rw [fval, hnode]
        _ ≤ rcost c (w :: t) + φ w := by linarith
        _ ≤ rcost c (p0 :: pt) + φ p0 := hmono

/-- Skipping an already settled popped entry preserves the invariant. -/
theorem inv_skip {V : Type} [DecidableEq V] (adj : V → List V)
    (c : V → V → Real) (φ : V → Real) (start goal : V)
    (closed : List (V × Real)) (opn : List (SearchEntry V))
    (inv : SearchInv adj c start goal closed opn) (e0 : SearchEntry V)
    (rest : List (SearchEntry V)) (hpop : argminF φ opn = some (e0, rest))
    (hin : e0.node ∈ closedKeys closed) :
    SearchInv adj c start goal closed rest := by
  have hspec := argminF_spec φ opn e0 rest hpop
  refine ⟨?_, inv.closed_opt, ?_, ?_, inv.goal_not_closed⟩
  · intro x hx
    exact inv.open_sound x (hspec.2.2.1 x hx)
  · intro p hp w hw hwn
    obtain ⟨e, he, hnode, hg⟩ := inv.closed_edge p hp w hw hwn
    have hne : e ≠ e0 := by
      intro hcontra
      rw [hcontra] at hnode
      rw [hnode] at hin
      exact hwn hin
    rcases hspec.2.2.2 e he with h1 | h1
    · exact absurd h1 hne
    · exact ⟨e, h1, hnode, hg⟩
  · intro hs
    obtain ⟨e, he, hnode, hg⟩ := inv.start_open hs
    have hne : e ≠ e0 := by
      intro hcontra
      rw [hcontra] at hnode
      rw [hnode] at hin
      exact hs hin
    rcases hspec.2.2.2 e he with h1 | h1
    · exact absurd h1 hne
    · exact ⟨e, h1, hnode, hg⟩

/-- Settling the popped entry and pushing its unsettled neighbours
preserves the invariant, given the consistency inequality. -/
theorem inv_expand {V : Type} [DecidableEq V] (adj : V → List V)
    (c : V → V → Real) (φ : V → Real)
    (hφ : ∀ u v, v ∈ adj u → φ u ≤ c u v + φ v) (start goal : V)
    (closed : List (V × Real)) (opn : List (SearchEntry V))
    (inv : SearchInv adj c start goal closed opn) (e0 : SearchEntry V)
    (rest : List (SearchEntry V)) (hpop : argminF φ opn = some (e0, rest))
    (hnin : e0.node ∉ closedKeys closed) (hng : e0.node ≠ goal) :
    SearchInv adj c start goal ((e0.node, e0.g) :: closed)
      (rest ++ ((adj e0.node).filter
          (fun v => decide
            (v ∉ closedKeys ((e0.node, e0.g) :: closed)))).map
        (fun v => ⟨v, v :: e0.path, e0.g + c e0.node v⟩)) := by
  have hspec := argminF_spec φ opn e0 rest hpop
  have hsound0 := inv.open_sound e0 hspec.1
  obtain ⟨hval0, hhead0, hg0⟩ := hsound0
  have hkeys : closedKeys ((e0.node, e0.g) :: closed) =
      e0.node :: closedKeys closed := rfl
  obtain ⟨t0, ht0⟩ : ∃ t0, e0.path = e0.node :: t0 := by
    cases hpath : e0.path with
    | nil => rw [hpath] at hhead0; simp at hhead0
    | cons a t =>
        rw [hpath] at hhead0
        simp only [List.head?_cons, Option.some.injEq] at hhead0
        exact ⟨t, by rw [hhead0]⟩
  refine ⟨?_, ?_, ?_, ?_, ?_⟩
  · intro x hx
    rcases List.mem_append.mp hx with h1 | h1
    · exact inv.open_sound x (hspec.2.2.1 x h1)
    · rcases List.mem_map.mp h1 with ⟨v, hvf, hxv⟩
      rcases List.mem_filter.mp hvf with ⟨hvadj, _⟩
      subst hxv
      refine ⟨?_, by simp, ?_⟩
      · rw [ht0]
        have hvalt : ValidRPath adj start (e0.node :: t0) := ht0 ▸ hval0
        exact ⟨hvadj, hvalt⟩
      · rw [ht0]
        have hrw : rcost c (v :: e0.node :: t0) =
            c e0.node v + rcost c (e0.node :: t0) := rfl
        rw [hrw, ← ht0, ← hg0]
        ring
  · intro p hp q hq hqh
    rcases List.mem_cons.mp hp with h1 | h1
    · subst h1
      have hbound := popped_min_f adj c φ hφ start goal closed opn inv
        e0 rest hpop q e0.node hq hqh hnin
      have hfe : fval φ e0 = e0.g + φ e0.node := rfl
      rw [hfe] at hbound
      linarith
    · exact inv.closed_opt p h1 q hq hqh
  · intro p hp w hw hwn
    rw [hkeys] at hwn
    have hwne : w ≠ e0.node := by
      intro hc
      apply hwn
      rw [hc]
      exact List.mem_cons_self _ _
    have hwold : w ∉ closedKeys closed := by
      intro hc
      exact hwn (List.mem_cons_of_mem _ hc)
    rcases List.mem_cons.mp hp with h1 | h1
    · subst h1
      refine ⟨⟨w, w :: e0.path, e0.g + c e0.node w⟩, ?_, rfl, le_refl _⟩
      apply List.mem_append_right
      apply List.mem_map.mpr
      refine ⟨w, ?_, rfl⟩
      apply List.mem_filter.mpr
      refine ⟨hw, ?_⟩
      apply decide_eq_true
      rw [hkeys]
      intro hc
      rcases List.mem_cons.mp hc with h2 | h2
      · exact hwne h2
      · exact hwold h2
    · obtain ⟨e, he, hnode, hg⟩ := inv.closed_edge p h1 w hw hwold
      have hne : e ≠ e0 := by
        intro hcontra
        rw [hcontra] at hnode
        exact hwne hnode.symm
      rcases hspec.2.2.2 e he with h2 | h2
      · exact absurd h2 hne
      · exact ⟨e, List.mem_append_left _ h2, hnode, hg⟩
  · intro hs
    rw [hkeys] at hs
    have hsne : start ≠ e0.node := by
      intro hc
      apply hs
      rw [hc]
      exact List.mem_cons_self _ _
    have hsold : start ∉ closedKeys closed := by
      intro hc
      exact hs (List.mem_cons_of_mem _ hc)
    obtain ⟨e, he, hnode, hg⟩ := inv.start_open hsold
    have hne : e ≠ e0 := by
      intro hcontra
      rw [hcontra] at hnode
      exact hsne hnode.symm
    rcases hspec.2.2.2 e he with h2 | h2
    · exact absurd h2 hne
    · exact ⟨e, List.mem_append_left _ h2, hnode, hg⟩
  · rw [hkeys]
    intro hc
    rcases List.mem_cons.mp hc with h2 | h2
    · exact hng h2.symm
    · exact inv.goal_not_closed h2

/-- The invariant holds initially: nothing settled, one start entry open. -/
theorem inv_init {V : Type} [DecidableEq V] (adj : V → List V)
    (c : V → V → Real) (start goal : V) :
    SearchInv adj c start goal []
      [(⟨start, [start], 0⟩ : SearchEntry V)] := by
  refine ⟨?_, ?_, ?_, ?_, ?_⟩
  · intro e he
    rcases List.mem_cons.mp he with h1 | h1
    · subst h1
      exact ⟨rfl, rfl, rfl⟩
    · simp at h1
  · intro p hp
    simp at hp
  · intro p hp
    simp at hp
  · intro _
    exact ⟨⟨start, [start], 0⟩, List.mem_cons_self _ _, rfl, le_refl 0⟩
  · simp [closedKeys]

/-- Under the invariant, every entry returned by the search is a valid
costed path ending at the accepting node whose cost is a lower bound over
all valid paths to the accepting node — the search is cost-optimal. -/
theorem astar_search_optimal {V : Type} [DecidableEq V] (adj : V → List V)
    (c : V → V → Real) (φ : V → Real)
    (hφ : ∀ u v, v ∈ adj u → φ u ≤ c u v + φ v) (start goal : V)
    (hgz : φ goal = 0) :
    ∀ (fuel : Nat) (closed : List (V × Real))
      (opn : List (SearchEntry V)),
      SearchInv adj c start goal closed opn →
      ∀ e, astar_search adj c φ goal fuel closed opn = some e →
        ValidRPath adj start e.path ∧ e.path.head? = some e.node ∧
        e.node = goal ∧ e.g = rcost c e.path ∧
        ∀ q, ValidRPath adj start q → q.head? = some goal →
          e.g ≤ rcost c q := by
  intro fuel
  induction fuel with
  | zero =>
      intro closed opn inv e h
      simp [astar_search] at h
  | succ n ih =>
      intro closed opn inv e h
      rw [astar_search] at h
      cases hpop : argminF φ opn with
      | none => rw [hpop] at h; simp at h
      | some pr =>
          obtain ⟨e0, rest⟩ := pr
          rw [hpop] at h
          by_cases hin : e0.node ∈ closedKeys closed
          · simp only [if_pos hin] at h
            exact ih closed rest
              (inv_skip adj c φ start goal closed opn inv e0 rest hpop hin)
              e h
          · by_cases hgl : e0.node = goal
            · simp only [if_neg hin, if_pos hgl] at h
              have he : e0 = e := Option.some.inj h
              subst he
              have hsound := inv.open_sound e0
                (argminF_spec φ opn e0 rest hpop).1
              refine ⟨hsound.1, hsound.2.1, hgl, hsound.2.2, ?_⟩
              intro q hq hqh
              have hbound := popped_min_f adj c φ hφ start goal closed opn
                inv e0 rest hpop q goal hq hqh inv.goal_not_closed
              have hfe : fval φ e0 = e0.g + φ e0.node := rfl
              rw [hfe, hgl, hgz] at hbound
              linarith
            · simp only [if_neg hin, if_neg hgl] at h
              exact ih _ _
                (inv_expand adj c φ hφ start goal closed opn inv e0 rest
                  hpop hin hgl)
                e h

/-- A full planning run returns a cost-optimal valid path to the goal. -/
theorem astar_run_optimal {V : Type} [DecidableEq V] (adj : V → List V)
    (c : V → V → Real) (φ : V → Real)
    (hφ : ∀ u v, v ∈ adj u → φ u ≤ c u v + φ v) (start goal : V)
    (hgz : φ goal = 0) (fuel : Nat) (e : SearchEntry V)
    (h : astar_run adj c φ start goal fuel = some e) :
    ValidRPath adj start e.path ∧ e.path.head? = some e.node ∧
    e.node = goal ∧ e.g = rcost c e.path ∧
    ∀ q, ValidRPath adj start q → q.head? = some goal →
      e.g ≤ rcost c q :=
  astar_search_optimal adj c φ hφ start goal hgz fuel []
    [⟨start, [start], 0⟩] (inv_init adj c start goal) e h

/-- Claim C4: the dijkstra branch of the main-window dispatch constructs
the same AStarPlanner invocation as the astar branch with
heuristic_weight = 0.0 passed explicitly (no separate code path), and on
any grid graph with euclidean edge costs and obstacles folded into the
validity predicate, the searches with heuristic weight 0 (Dijkstra) and
weight 1 (standard A*) both return cost-optimal paths, hence paths of equal
total length. -/
theorem dijkstra_is_astar_weight_zero :
    (∀ (fp : FlightParams) (fw : Bool) (corners : List (Real × Real)),
      2 ≤ corners.length →
      on_preview_select .dijkstra fp fw corners =
        .astarCall fp.spacing .euclidean (some 0.0) (corners.headD (0, 0))
          (corners.getLastD (0, 0)) corners ∧
      on_preview_select .astar fp fw corners =
        .astarCall fp.spacing .euclidean none (corners.headD (0, 0))
          (corners.getLastD (0, 0)) corners) ∧
    (∀ (valid : Int × Int → Bool) (origin : Complex) (step : Real)
      (start goal : Int × Int) (fuel0 fuel1 : Nat)
      (e0 e1 : SearchEntry (Int × Int)),
      astar_run (gridNeighbors valid) (euclidCost (gridPos origin step))
        (fun _ => 0) start goal fuel0 = some e0 →
      astar_run (gridNeighbors valid) (euclidCost (gridPos origin step))
        (euclidHeuristic (gridPos origin step) goal) start goal fuel1 =
          some e1 →
      e0.g = e1.g ∧
      rcost (euclidCost (gridPos origin step)) e0.path =
        rcost (euclidCost (gridPos origin step)) e1.path ∧
      (∀ q, ValidRPath (gridNeighbors valid) start q →
        q.head? = some goal →
        e0.g ≤ rcost (euclidCost (gridPos origin step)) q)) := by
  constructor
  · intro fp fw corners h2
    constructor <;> simp [on_preview_select, if_pos h2]
  · intro valid origin step start goal fuel0 fuel1 e0 e1 h0 h1
    have hφ0 : ∀ u v, v ∈ gridNeighbors valid u →
        (fun _ : Int × Int => (0 : Real)) u ≤
          euclidCost (gridPos origin step) u v +
            (fun _ : Int × Int => (0 : Real)) v := by
      intro u v _
      have : (0 : Real) ≤ dist (gridPos origin step u)
          (gridPos origin step v) := dist_nonneg
      simpa [euclidCost] using this
    have hφ1 : ∀ u v, v ∈ gridNeighbors valid u →
        euclidHeuristic (gridPos origin step) goal u ≤
          euclidCost (gridPos origin step) u v +
            euclidHeuristic (gridPos origin step) goal v := by
      intro u v _
      exact dist_triangle (gridPos origin step u) (gridPos origin step v)
        (gridPos origin step goal)
    have hgz1 : euclidHeuristic (gridPos origin step) goal goal = 0 :=
      dist_self _
    have O0 := astar_run_optimal (gridNeighbors valid)
      (euclidCost (gridPos origin step)) (fun _ => 0) hφ0 start goal rfl
      fuel0 e0 h0
    have O1 := astar_run_optimal (gridNeighbors valid)
      (euclidCost (gridPos origin step))
      (euclidHeuristic (gridPos origin step) goal) hφ1 start goal hgz1
      fuel1 e1 h1
    have hq0head : e0.path.head? = some goal :=
      O0.2.1.trans (congrArg some O0.2.2.1)
    have hq1head : e1.path.head? = some goal :=
      O1.2.1.trans (congrArg some O1.2.2.1)
    have hle01 : e0.g ≤ e1.g := by
      have := O0.2.2.2.2 e1.path O1.1 hq1head
      rw [← O1.2.2.2.1] at this
      exact this
    have hle10 : e1.g ≤ e0.g := by
      have := O1.2.2.2.2 e0.path O0.1 hq0head
      rw [← O0.2.2.2.1] at this
      exact this
    have heq : e0.g = e1.g := le_antisymm hle01 hle10
    refine ⟨heq, ?_, ?_⟩
    · rw [← O0.2.2.2.1, ← O1.2.2.2.1]
      exact heq
    · intro q hq hqh
      exact O0.2.2.2.2 q hq hqh

/-- Witness for claim C4 on the trivial one-node instance where both runs
return the start entry. -/
theorem dijkstra_is_astar_weight_zero_witness :
    (2 ≤ [((0 : Real), (0 : Real)), (1, 1)].length) ∧
    astar_run (gridNeighbors (fun _ => false))
        (euclidCost (gridPos 0 1)) (fun _ => 0)
        ((0, 0) : Int × Int) ((0, 0) : Int × Int) 1 =
      some ⟨(0, 0), [(0, 0)], 0⟩ ∧
    astar_run (gridNeighbors (fun _ => false)) (euclidCost (gridPos 0 1))
        (euclidHeuristic (gridPos 0 1) ((0, 0) : Int × Int))
        ((0, 0) : Int × Int) ((0, 0) : Int × Int) 1 =
      some ⟨(0, 0), [(0, 0)], 0⟩ ∧
    ((⟨(0, 0), [(0, 0)], 0⟩ : SearchEntry (Int × Int)).g =
      (⟨(0, 0), [(0, 0)], 0⟩ : SearchEntry (Int × Int)).g) := by
  have h0 : astar_run (gridNeighbors (fun _ => false))
      (euclidCost (gridPos 0 1)) (fun _ => 0)
      ((0, 0) : Int × Int) ((0, 0) : Int × Int) 1 =
      some ⟨(0, 0), [(0, 0)], 0⟩ := by
    simp [astar_run, astar_search, argminF, closedKeys]
  have h1 : astar_run (gridNeighbors (fun _ => false))
      (euclidCost (gridPos 0 1))
      (euclidHeuristic (gridPos 0 1) ((0, 0) : Int × Int))
      ((0, 0) : Int × Int) ((0, 0) : Int × Int) 1 =
      some ⟨(0, 0), [(0, 0)], 0⟩ := by
    simp [astar_run, astar_search, argminF, closedKeys]
  exact ⟨by simp, h0, h1,
    (dijkstra_is_astar_weight_zero.2 (fun _ => false) 0 1 (0, 0) (0, 0)
      1 1 ⟨(0, 0), [(0, 0)], 0⟩ ⟨(0, 0), [(0, 0)], 0⟩ h0 h1).1⟩
